import Mathlib

/-!
# Verification of the Groq-V2 plugin lifecycle and command-dispatch core

Shallow embedding of `src/core/PluginManager.js` (the enhanced iteration
with database sync) and `src/utils/rateLimiter.js`.  JavaScript `Map`s are
modelled as insertion-ordered association lists, the Mongo `plugins`
collection as a list of records, dynamic `import()` results as
`Option Artifact`, and JS timestamps as `Nat` milliseconds.
-/

namespace Groq

/-- `MAX_CRASHES` from PluginManager.js. -/
def MAX_CRASHES : Nat := 3

/-- `CRASH_WINDOW` from PluginManager.js (1 hour in ms). -/
def CRASH_WINDOW : Nat := 3600000

/-- `MAX_REQUESTS` from rateLimiter.js (default, no env override). -/
def MAX_REQUESTS : Nat := 10

/-- `WINDOW_MS` from rateLimiter.js (default, no env override). -/
def WINDOW_MS : Nat := 60000

/-- JS `a || b` for string-valued fields: `undefined`/`null` and the empty
string are falsy, any other string is truthy. -/
def jsOrStr (o : Option String) (d : String) : String :=
  match o with
  | some s => if s = "" then d else s
  | none => d

/-- JS truthiness of an optional string field (`!x` is true iff falsy). -/
def jsTruthyStr (o : Option String) : Bool :=
  match o with
  | some s => s ≠ ""
  | none => false

/-- The raw `plugin.default` object produced by a dynamic import.
Fields that a plugin file may or may not define are `Option`s
(`none` = `undefined`).  `run` records whether a callable `run`
function is present — `loadPlugin` never inspects it. -/
structure Artifact where
  name : Option String
  run : Bool
  aliases : Option (List String)
  description : Option String
  category : Option String
  usage : Option String
  exampleText : Option String  -- JS field `example`
  version : Option String
  ownerOnly : Option Bool
  deriving Repr, DecidableEq

/-- A registered descriptor: `{...plugin.default, filename, enabled: true,
crashes: 0, lastCrash: null}` as stored in `this.plugins`. -/
structure Plugin where
  name : String
  run : Bool
  aliases : Option (List String)
  description : Option String
  category : Option String
  usage : Option String
  exampleText : Option String  -- JS field `example`
  version : Option String
  ownerOnly : Option Bool
  filename : String
  enabled : Bool
  crashes : Nat
  lastCrash : Option Nat
  deriving Repr, DecidableEq

/-- `this.plugins : Map<string, plugin>` — insertion-ordered. -/
abbrev Registry := List (String × Plugin)

/-- `Map.get`. -/
def mapGet (m : Registry) (k : String) : Option Plugin :=
  (m.find? (fun e => e.1 = k)).map (·.2)

/-- `Map.set`: replace in place when the key exists (keeping its original
position), else append. -/
def mapSet (m : Registry) (k : String) (v : Plugin) : Registry :=
  if m.any (fun e => e.1 = k) then
    m.map (fun e => if e.1 = k then (k, v) else e)
  else
    m ++ [(k, v)]

/-- `Map.delete`. -/
def mapDelete (m : Registry) (k : String) : Registry :=
  m.filter (fun e => e.1 ≠ k)

/-- The descriptor built inside `loadPlugin` (lines 65–72). -/
def buildPluginData (a : Artifact) (filename : String) : Plugin :=
  { name := a.name.getD ""
    run := a.run
    aliases := a.aliases
    description := a.description
    category := a.category
    usage := a.usage
    exampleText := a.exampleText
    version := a.version
    ownerOnly := a.ownerOnly
    filename := filename
    enabled := true
    crashes := 0
    lastCrash := none }

/-- `PluginManager.loadPlugin` (lines 55–79).  `imported = none` models a
failed dynamic import or a module with no default export; both paths are
caught/guarded and leave the registry unchanged.  The only validation is
`!plugin.default.name` (falsy name), after which the artifact is
registered with `Map.set`. -/
def loadPlugin (reg : Registry) (imported : Option Artifact) (filename : String) : Registry :=
  match imported with
  | none => reg
  | some a =>
    if jsTruthyStr a.name then
      mapSet reg (a.name.getD "") (buildPluginData a filename)
    else
      reg

/-- `PluginManager.loadPlugins` loop (lines 39–41): each file is loaded
independently; a skipped or failed file never aborts the batch. -/
def loadPlugins (files : List (String × Option Artifact)) : Registry :=
  files.foldl (fun reg fa => loadPlugin reg fa.2 fa.1) []

/-- `PluginManager.findPlugin` (lines 369–376): first descriptor in
insertion order whose `name` equals the token or whose `aliases`
(optional chaining, `undefined` is falsy) contain it. -/
def findPlugin (reg : Registry) (tok : String) : Option Plugin :=
  (reg.map (·.2)).find? (fun p => p.name = tok || (p.aliases.getD []).contains tok)

/-! ## The persisted `plugins` collection -/

/-- A document of the Mongo `plugins` collection.  Fields absent from a
freshly inserted document (`orphaned`, `usageCount`, `lastUsed`) start at
their falsy defaults. -/
structure Record where
  name : String
  description : String
  category : String
  aliases : List String
  usage : String
  exampleText : String  -- JS field `example`
  filename : String
  ownerOnly : Bool
  enabled : Bool
  crashes : Nat
  lastCrash : Option Nat
  updatedAt : Nat
  version : String
  createdAt : Nat
  usageCount : Nat
  lastUsed : Option Nat
  orphaned : Bool
  deriving Repr, DecidableEq

/-- Mongo `updateOne({name}, ...)`: apply `f` to the first record whose
`name` matches; no-op when none matches. -/
def updateFirst (store : List Record) (n : String) (f : Record → Record) : List Record :=
  match store with
  | [] => []
  | r :: rs => if r.name = n then f r :: rs else r :: updateFirst rs n f

/-- `new Map(existingPlugins.map(p => [p.name, p])).get(n)`: for duplicate
names the later entry wins, so look from the back. -/
def existingGet (snapshot : List Record) (n : String) : Option Record :=
  snapshot.reverse.find? (fun r => r.name = n)

/-- The `pluginDoc` object built in `syncPluginsToDatabase` (lines
103–117).  `createdAt`/`usageCount`/`lastUsed`/`orphaned` are not part of
the document; they carry their absent-field defaults here and
`applyPluginDoc` never transfers them. -/
def pluginDoc (p : Plugin) (existing : Option Record) (now : Nat) : Record :=
  { name := p.name
    description := jsOrStr p.description "No description"
    category := jsOrStr p.category "general"
    aliases := p.aliases.getD []
    usage := jsOrStr p.usage ""
    exampleText := jsOrStr p.exampleText ""
    filename := p.filename
    ownerOnly := p.ownerOnly.getD false
    enabled := match existing with | some e => e.enabled | none => true
    crashes := match existing with | some e => e.crashes | none => 0
    lastCrash := match existing with | some e => e.lastCrash | none => none
    updatedAt := now
    version := jsOrStr p.version "1.0.0"
    createdAt := 0
    usageCount := 0
    lastUsed := none
    orphaned := false }

/-- Mongo `$set: pluginDoc` on an existing record: exactly the fields of
the document are overwritten; `createdAt`, `usageCount`, `lastUsed` and
`orphaned` are untouched. -/
def applyPluginDoc (r doc : Record) : Record :=
  { r with
    name := doc.name, description := doc.description, category := doc.category
    aliases := doc.aliases, usage := doc.usage, exampleText := doc.exampleText
    filename := doc.filename, ownerOnly := doc.ownerOnly, enabled := doc.enabled
    crashes := doc.crashes, lastCrash := doc.lastCrash
    updatedAt := doc.updatedAt, version := doc.version }

/-- One iteration of the `for (const [name, plugin] of this.plugins)` loop
of `syncPluginsToDatabase` (lines 100–145): insert a new record, or update
the stored record when display metadata changed, and in either existing
case pull the in-memory `enabled` from the store. -/
def syncStep (snapshot : List Record) (now : Nat)
    (acc : Registry × List Record) (e : String × Plugin) : Registry × List Record :=
  let p := e.2
  match existingGet snapshot e.1 with
  | none =>
      (acc.1 ++ [(e.1, p)], acc.2 ++ [{ pluginDoc p none now with createdAt := now }])
  | some ex =>
      let doc := pluginDoc p (some ex) now
      let store' :=
        if ex.description ≠ doc.description ∨ ex.category ≠ doc.category ∨
            ex.aliases ≠ doc.aliases ∨ ex.usage ≠ doc.usage then
          updateFirst acc.2 e.1 (fun r => applyPluginDoc r doc)
        else
          acc.2
      (acc.1 ++ [(e.1, { p with enabled := ex.enabled })], store')

/-- `PluginManager.syncPluginsToDatabase` (lines 84–174): reconcile each
loaded descriptor against the store snapshot, then soft-disable persisted
records whose name is no longer loaded (lines 147–161). -/
def syncPluginsToDatabase (reg : Registry) (store : List Record) (now : Nat) :
    Registry × List Record :=
  let res := reg.foldl (syncStep store now) ([], store)
  let loadedNames := res.1.map (·.1)
  let orphanedPlugins := store.filter (fun r => ¬ loadedNames.contains r.name)
  (res.1,
   orphanedPlugins.foldl
     (fun st o => updateFirst st o.name (fun r => { r with enabled := false, orphaned := true }))
     res.2)

/-! ## Crash tracking -/

/-- The crash count after one `trackCrash` call: lines 334–339.  The
window check is JS `plugin.lastCrash && (now - plugin.lastCrash >
CRASH_WINDOW)`: a `null` (and the falsy timestamp `0`) skips the reset to
0; the count is then incremented. -/
def newCrashCount (p : Plugin) (now : Nat) : Nat :=
  (match p.lastCrash with
   | some t => if t ≠ 0 ∧ now - t > CRASH_WINDOW then 0 else p.crashes
   | none => p.crashes) + 1

/-- Body of `trackCrash` once the descriptor is found (lines 334–363). -/
def trackCrashGo (reg : Registry) (store : List Record) (pluginName : String) (now : Nat)
    (p : Plugin) : Registry × List Record :=
  if newCrashCount p now ≥ MAX_CRASHES then
    (mapSet reg pluginName
       { p with crashes := newCrashCount p now, lastCrash := some now, enabled := false },
     updateFirst
       (updateFirst store pluginName
         (fun r => { r with crashes := newCrashCount p now, lastCrash := some now }))
       pluginName (fun r => { r with enabled := false }))
  else
    (mapSet reg pluginName { p with crashes := newCrashCount p now, lastCrash := some now },
     updateFirst store pluginName
       (fun r => { r with crashes := newCrashCount p now, lastCrash := some now }))

/-- `PluginManager.trackCrash` (lines 328–364): no-op for an unknown name;
otherwise update count/timestamp (in memory and best-effort in the store)
and auto-disable on reaching `MAX_CRASHES`, in memory and in the store. -/
def trackCrash (reg : Registry) (store : List Record) (pluginName : String) (now : Nat) :
    Registry × List Record :=
  match mapGet reg pluginName with
  | none => (reg, store)
  | some p => trackCrashGo reg store pluginName now p

/-! ## RateLimiter (src/utils/rateLimiter.js) -/

/-- The NodeCache instance: entries `(key, count, expiry)` with
`stdTTL = WINDOW_MS / 1000` seconds, i.e. `WINDOW_MS` milliseconds. -/
abbrev Cache := List (String × Nat × Nat)

/-- `cache.get(key)` at time `t`: an expired entry reads as absent. -/
def cacheGet (c : Cache) (k : String) (t : Nat) : Option Nat :=
  match c.find? (fun e => e.1 = k) with
  | some e => if t < e.2.2 then some e.2.1 else none
  | none => none

/-- `cache.set(key, v)` at time `t`: store `v` with a fresh TTL. -/
def cacheSet (c : Cache) (k : String) (v : Nat) (t : Nat) : Cache :=
  if c.any (fun e => e.1 = k) then
    c.map (fun e => if e.1 = k then (k, v, t + WINDOW_MS) else e)
  else
    c ++ [(k, v, t + WINDOW_MS)]

/-- `RateLimiter.checkLimit` (lines 14–24). -/
def checkLimit (c : Cache) (userId : String) (t : Nat) : Bool × Cache :=
  let key := "rate_" ++ userId
  let current := (cacheGet c key t).getD 0
  if current ≥ MAX_REQUESTS then (false, c)
  else (true, cacheSet c key (current + 1) t)

/-- `RateLimiter.reset` (lines 29–31). -/
def rlReset (c : Cache) (userId : String) : Cache :=
  c.filter (fun e => e.1 ≠ "rate_" ++ userId)

/-- `n` consecutive `checkLimit` calls for one identity at time `t`:
returns the sequence of results and the final cache. -/
def callSeq (id : String) (t : Nat) : Nat → List Bool × Cache
  | 0 => ([], [])
  | n + 1 =>
    let r := callSeq id t n
    let r2 := checkLimit r.2 id t
    (r.1 ++ [r2.1], r2.2)

/-! ## Dispatcher: message intake, queue, execution -/

/-- The payload shapes probed by `extractMessageText`. -/
structure MsgPayload where
  conversation : Option String
  extendedText : Option String
  imageCaption : Option String
  videoCaption : Option String
  deriving Repr, DecidableEq

/-- An inbound message: `hasMessage` models `msg.message` being present. -/
structure Msg where
  hasMessage : Bool
  payload : MsgPayload
  fromMe : Bool
  remoteJid : String
  deriving Repr, DecidableEq

/-- `PluginManager.extractMessageText` (lines 381–389): JS `a || b || c ||
d || ''` — first truthy (non-empty) string wins. -/
def extractMessageText (m : Msg) : String :=
  jsOrStr m.payload.conversation
    (jsOrStr m.payload.extendedText
      (jsOrStr m.payload.imageCaption
        (jsOrStr m.payload.videoCaption "")))

/-- An entry of `this.commandQueue` (the `msg`/`sock` handles carry no
state the core tracks). -/
structure QueuedCmd where
  commandName : String
  args : List String
  sender : String
  deriving Repr, DecidableEq

/-- JS `text.startsWith(pfx)`. -/
def jsStartsWith (s pre : String) : Bool :=
  List.isPrefixOf pre.data s.data

/-- JS `text.slice(n)`. -/
def jsSlice (s : String) (n : Nat) : String :=
  String.mk (s.data.drop n)

/-- JS `s.trim().split(/\s+/)` restricted to its use at line 224: tokens
are the maximal whitespace-free runs (destructuring the JS result `[""]`
for blank input yields command name `""` and no args, exactly as the empty
token list does through `headD ""`/`tail`). -/
def splitWs (s : String) : List String :=
  ((s.data.splitOnP Char.isWhitespace).map (fun l => String.mk l)).filter (fun x => x ≠ "")

/-- `PluginManager.handleMessage` (lines 218–238) up to the queue push:
filter self/empty messages, match the prefix, tokenize, rate-check, and
only then append to `commandQueue`.  Returns the limiter cache and the
queue after the call. -/
def handleMessage (pfx : String) (rl : Cache) (queue : List QueuedCmd) (m : Msg) (t : Nat) :
    Cache × List QueuedCmd :=
  if ¬ m.hasMessage ∨ m.fromMe then (rl, queue)
  else
    let text := extractMessageText m
    if text = "" ∨ ¬ jsStartsWith text pfx then (rl, queue)
    else
      let parts := splitWs (jsSlice text pfx.length)
      let res := checkLimit rl m.remoteJid t
      if res.1 then
        (res.2, queue ++ [⟨parts.headD "", parts.tail, m.remoteJid⟩])
      else
        (res.2, queue)

/-- `PluginManager.updatePluginStats` (lines 307–323). -/
def updatePluginStats (store : List Record) (pluginName : String) (now : Nat) : List Record :=
  updateFirst store pluginName
    (fun r => { r with usageCount := r.usageCount + 1, lastUsed := some now })

/-- The externally visible outcome of `executeCommand`. -/
inductive ExecOutcome where
  | noPlugin
  | disabledNotice (pluginName : String)
  | ownerOnlyNotice
  | completed (pluginName : String)
  | failed (pluginName : String)
  deriving Repr, DecidableEq

/-- JS `s.includes(sub)`. -/
def jsIncludes (s sub : String) : Bool :=
  decide (sub.data <:+: s.data)

/-- `PluginManager.isOwner` (lines 394–397): substring containment of
`OWNER_NUMBER` in the sender JID. -/
def isOwner (ownerNumber jid : String) : Bool :=
  jsIncludes jid ownerNumber

/-- Body of `executeCommand` once the descriptor is resolved (lines
264–301): disabled notice, owner-only gate, then the `Promise.race` of the
handler against the timeout — `handlerOk = true` means the handler settled
successfully, `false` that it threw or timed out. -/
def executeCommandGo (reg : Registry) (store : List Record) (ownerNumber : String)
    (cmd : QueuedCmd) (handlerOk : Bool) (now : Nat) (p : Plugin) :
    ExecOutcome × Registry × List Record :=
  if ¬ p.enabled then (.disabledNotice p.name, reg, store)
  else if p.ownerOnly.getD false && ! isOwner ownerNumber cmd.sender then
    (.ownerOnlyNotice, reg, store)
  else if handlerOk then
    (.completed p.name, reg, updatePluginStats store p.name now)
  else
    ((.failed p.name : ExecOutcome), (trackCrash reg store p.name now).1,
      (trackCrash reg store p.name now).2)

/-- `PluginManager.executeCommand` (lines 259–302). -/
def executeCommand (reg : Registry) (store : List Record) (ownerNumber : String)
    (cmd : QueuedCmd) (handlerOk : Bool) (now : Nat) :
    ExecOutcome × Registry × List Record :=
  match findPlugin reg cmd.commandName with
  | none => (.noPlugin, reg, store)
  | some p => executeCommandGo reg store ownerNumber cmd handlerOk now p

/-- `PluginManager.reloadPlugin` (lines 194–213): delete from the registry
first, then re-import (`importResult` gives the outcome of the dynamic
re-load of the plugin's file), then sync. -/
def reloadPlugin (reg : Registry) (store : List Record) (pluginName : String)
    (importResult : String → Option Artifact) (now : Nat) :
    Except String (Registry × List Record) :=
  match mapGet reg pluginName with
  | none => .error ("Plugin " ++ pluginName ++ " not found")
  | some p =>
    let reg1 := mapDelete reg pluginName
    let reg2 := loadPlugin reg1 (importResult p.filename) p.filename
    let res := syncPluginsToDatabase reg2 store now
    .ok res

/-! ## Queue discipline as a labelled state machine

JavaScript is single-threaded: steps interleave only at `await` points.
The machine below has one transition per suspension-free segment of
`handleMessage`/`processQueue` (lines 218–254).  `started` and `admitted`
are history variables recording, respectively, the order in which
executions began and the order in which invocations were appended to
`commandQueue`. -/

structure DispatchState where
  rl : Cache
  queue : List QueuedCmd
  isProcessing : Bool
  running : Bool
  started : List QueuedCmd
  admitted : List QueuedCmd

/-- A `handleMessage` call: the real queue and limiter change per
`handleMessage`; whatever got appended is also recorded in `admitted`. -/
def intake (pfx : String) (s : DispatchState) (m : Msg) (t : Nat) : DispatchState :=
  let res := handleMessage pfx s.rl s.queue m t
  { s with rl := res.1, queue := res.2, admitted := s.admitted ++ res.2.drop s.queue.length }

/-- Atomic steps of the dispatcher:
* `arrive` — a `handleMessage` invocation (lines 218–238);
* `startDrain` — `processQueue` passes its guard and sets `isProcessing`
  (lines 244–246), only reachable with a non-empty queue;
* `beginExec` — the loop shifts the head and starts awaiting
  `executeCommand` (lines 248–250); the `await` on the previous command
  must have settled (`running = false`);
* `endExec` — the awaited execution settles;
* `stopDrain` — the loop exits and clears `isProcessing` (line 253). -/
inductive DStep (pfx : String) : DispatchState → DispatchState → Prop where
  | arrive (s : DispatchState) (m : Msg) (t : Nat) : DStep pfx s (intake pfx s m t)
  | startDrain (s : DispatchState) :
      s.isProcessing = false → s.queue ≠ [] →
      DStep pfx s { s with isProcessing := true }
  | beginExec (s : DispatchState) (c : QueuedCmd) (rest : List QueuedCmd) :
      s.isProcessing = true → s.running = false → s.queue = c :: rest →
      DStep pfx s { s with queue := rest, running := true, started := s.started ++ [c] }
  | endExec (s : DispatchState) :
      s.running = true → DStep pfx s { s with running := false }
  | stopDrain (s : DispatchState) :
      s.isProcessing = true → s.running = false → s.queue = [] →
      DStep pfx s { s with isProcessing := false }

/-- The constructor state (lines 16–24): empty queue, idle. -/
def initState : DispatchState :=
  { rl := [], queue := [], isProcessing := false, running := false,
    started := [], admitted := [] }

/-- States reachable from `initState` by dispatcher steps. -/
inductive Reach (pfx : String) : DispatchState → Prop where
  | init : Reach pfx initState
  | step (s s' : DispatchState) : Reach pfx s → DStep pfx s s' → Reach pfx s'


/-! ## Concrete instances used by the theorems below -/

/-- The registry entry produced by one sync-loop iteration: metadata flows
to the store, but `enabled` flows from the persisted record (line 143)
whenever one exists. -/
def syncRegEntry (snapshot : List Record) (e : String × Plugin) : String × Plugin :=
  match existingGet snapshot e.1 with
  | some ex => (e.1, { e.2 with enabled := ex.enabled })
  | none => e

/-- A minimal well-formed artifact to build concrete examples from. -/
def artifactBase : Artifact :=
  { name := none, run := true, aliases := none, description := none,
    category := none, usage := none, exampleText := none, version := none,
    ownerOnly := none }

def aPingFirst : Artifact :=
  { artifactBase with name := some "ping", description := some "first" }

def aPingSecond : Artifact :=
  { artifactBase with
    name := some "ping"
    description := some "second"
    aliases := some ["x"] }

def aXName : Artifact := { artifactBase with name := some "x" }

def collisionReg : Registry :=
  loadPlugins [("a.js", some aPingFirst), ("b.js", some aPingSecond), ("c.js", some aXName)]

def aliasShadowReg : Registry :=
  loadPlugins [("a.js", some { artifactBase with name := some "alpha", aliases := some ["x"] }),
               ("c.js", some aXName)]

/-- An artifact exposing a name but no callable handler. -/
def brokenArtifact : Artifact := { artifactBase with name := some "broken", run := false }

/-- A fully defaulted persisted record to build concrete stores from. -/
def recBase : Record :=
  { name := "", description := "", category := "", aliases := [], usage := "",
    exampleText := "", filename := "", ownerOnly := false, enabled := true,
    crashes := 0, lastCrash := none, updatedAt := 0, version := "",
    createdAt := 0, usageCount := 0, lastUsed := none, orphaned := false }

def recX : Record := { recBase with name := "x" }

def recPingOff : Record := { recBase with name := "ping", enabled := false }

def pCrashedTwiceOld : Plugin :=
  { buildPluginData aPingFirst "a.js" with crashes := 2, lastCrash := some 1 }

def pCrashedTwiceNew : Plugin :=
  { buildPluginData aXName "c.js" with crashes := 2, lastCrash := some 100 }

def ownerReg : Registry :=
  loadPlugins [("sec.js", some { artifactBase with
    name := some "sec"
    ownerOnly := some true })]

def reloadReg : Registry := loadPlugins [("a.js", some aPingFirst)]

def pingMsg : Msg :=
  { hasMessage := true
    payload := { conversation := some ".ping run", extendedText := none,
                 imageCaption := none, videoCaption := none }
    fromMe := false
    remoteJid := "u1" }

/-! ## Registry map lemmas -/

theorem find?_mapSet_replace (k : String) (v : Plugin) (m : Registry)
    (h : m.any (fun e => e.1 = k) = true) :
    (m.map (fun e => if e.1 = k then (k, v) else e)).find? (fun e => e.1 = k) = some (k, v) := by
  induction m with
  | nil => simp at h
  | cons e es ih =>
    by_cases he : e.1 = k
    · simp [he]
    · have h2 : es.any (fun x => x.1 = k) = true := by simpa [he] using h
      simpa [he] using ih h2

theorem find?_append_fresh (k : String) (v : Plugin) (m : Registry)
    (h : m.any (fun e => e.1 = k) = false) :
    (m ++ [(k, v)]).find? (fun e => e.1 = k) = some (k, v) := by
  induction m with
  | nil => simp
  | cons e es ih =>
    have he : ¬ e.1 = k := by
      intro hk
      simp [hk] at h
    have h2 : es.any (fun x => x.1 = k) = false := by simpa [he] using h
    simpa [he] using ih h2

theorem mapGet_mapSet_self (m : Registry) (k : String) (v : Plugin) :
    mapGet (mapSet m k v) k = some v := by
  unfold mapGet mapSet
  by_cases h : m.any (fun e => e.1 = k) = true
  · rw [if_pos h, find?_mapSet_replace k v m h]
    rfl
  · rw [if_neg h, find?_append_fresh k v m (by simpa only [Bool.not_eq_true] using h)]
    rfl

theorem mapGet_eq_none_iff (m : Registry) (k : String) :
    mapGet m k = none ↔ ∀ e ∈ m, e.1 ≠ k := by
  simp [mapGet, List.find?_eq_none]

theorem mapGet_mapDelete_self (m : Registry) (k : String) :
    mapGet (mapDelete m k) k = none := by
  rw [mapGet_eq_none_iff]
  intro e he
  have := List.of_mem_filter he
  simpa using this

theorem mapSet_keys (m : Registry) (k : String) (v : Plugin) :
    (mapSet m k v).map (·.1) =
      if m.any (fun e => e.1 = k) then m.map (·.1) else m.map (·.1) ++ [k] := by
  unfold mapSet
  by_cases h : m.any (fun e => e.1 = k) = true
  · rw [if_pos h, if_pos h, List.map_map]
    apply List.map_congr_left
    intro e _
    by_cases he : e.1 = k <;> simp [he]
  · rw [if_neg h, if_neg h]
    simp

theorem loadPlugin_keys_nodup (reg : Registry) (i : Option Artifact) (f : String)
    (h : (reg.map (·.1)).Nodup) : ((loadPlugin reg i f).map (·.1)).Nodup := by
  cases i with
  | none => exact h
  | some a =>
    simp only [loadPlugin]
    by_cases ha : jsTruthyStr a.name = true
    · rw [if_pos ha, mapSet_keys]
      by_cases h2 : reg.any (fun e => e.1 = a.name.getD "") = true
      · rw [if_pos h2]
        exact h
      · rw [if_neg h2, List.nodup_append]
        refine ⟨h, List.nodup_singleton _, ?_⟩
        intro x hx hk
        simp only [List.mem_singleton] at hk
        subst hk
        apply h2
        rw [List.any_eq_true]
        simp only [List.mem_map] at hx
        obtain ⟨e, he, hek⟩ := hx
        exact ⟨e, he, by simp [hek]⟩
    · rw [if_neg ha]
      exact h

theorem loadPlugins_keys_nodup (files : List (String × Option Artifact)) :
    ((loadPlugins files).map (·.1)).Nodup := by
  unfold loadPlugins
  suffices h : ∀ (fs : List (String × Option Artifact)) (acc : Registry),
      (acc.map (·.1)).Nodup →
      ((fs.foldl (fun reg fa => loadPlugin reg fa.2 fa.1) acc).map (·.1)).Nodup by
    exact h files [] (by simp)
  intro fs
  induction fs with
  | nil =>
    intro acc hacc
    simpa using hacc
  | cons f fs ih =>
    intro acc hacc
    simp only [List.foldl_cons]
    exact ih _ (loadPlugin_keys_nodup _ _ _ hacc)

theorem mapSet_key_eq_name (m : Registry) (k : String) (v : Plugin)
    (hm : ∀ e ∈ m, (e : String × Plugin).2.name = e.1) (hv : v.name = k) :
    ∀ e ∈ mapSet m k v, (e : String × Plugin).2.name = e.1 := by
  unfold mapSet
  split
  · intro e he
    simp only [List.mem_map] at he
    obtain ⟨x, hx, hxe⟩ := he
    by_cases h : x.1 = k
    · simp [h] at hxe; subst hxe; exact hv
    · simp [h] at hxe; subst hxe; exact hm x hx
  · intro e he
    rcases List.mem_append.mp he with h | h
    · exact hm e h
    · simp at h; subst h; exact hv

theorem loadPlugin_key_eq_name (reg : Registry) (i : Option Artifact) (fn : String)
    (h : ∀ e ∈ reg, (e : String × Plugin).2.name = e.1) :
    ∀ e ∈ loadPlugin reg i fn, (e : String × Plugin).2.name = e.1 := by
  cases i with
  | none => exact h
  | some a =>
    simp only [loadPlugin]
    by_cases ha : jsTruthyStr a.name = true
    · rw [if_pos ha]
      exact mapSet_key_eq_name _ _ _ h (by simp [buildPluginData])
    · rw [if_neg ha]
      exact h

theorem loadPlugins_key_eq_name (files : List (String × Option Artifact)) :
    ∀ e ∈ loadPlugins files, (e : String × Plugin).2.name = e.1 := by
  unfold loadPlugins
  suffices h : ∀ (fs : List (String × Option Artifact)) (acc : Registry),
      (∀ e ∈ acc, (e : String × Plugin).2.name = e.1) →
      ∀ e ∈ fs.foldl (fun reg fa => loadPlugin reg fa.2 fa.1) acc, (e : String × Plugin).2.name = e.1 by
    exact h files [] (by simp)
  intro fs
  induction fs with
  | nil =>
    intro acc hacc
    simpa using hacc
  | cons f fs ih =>
    intro acc hacc
    simp only [List.foldl_cons]
    exact ih _ (loadPlugin_key_eq_name _ _ _ hacc)

/-! ## C1: name/alias collision handling at load time -/

/-- C1 counterexample: loading two artifacts named `ping` does not skip the
second — the registered descriptor ends up with the second artifact's data
(silent overwrite, last-registered wins), and an artifact whose name `x`
equals an already-registered alias is registered anyway, so after loading
an alias (`x` of `ping`) equals another descriptor's name. -/
theorem load_collision_counterexample :
    (mapGet collisionReg "ping").map (fun p => p.description) = some (some "second") ∧
    (mapGet collisionReg "ping").map (fun p => (p.aliases.getD []).contains "x") = some true ∧
    (mapGet collisionReg "x").isSome = true := by
  decide

/-- C1 amended: `loadPlugin` performs no collision check at all.  Because
the registry is keyed by name, no two registered descriptors share a name;
but a valid artifact is always registered with its own data — on a name
collision the later artifact silently overwrites the earlier descriptor
(last-registered wins) — and aliases are never examined. -/
theorem load_no_collision_check :
    (∀ files : List (String × Option Artifact), ((loadPlugins files).map (·.1)).Nodup) ∧
    (∀ (reg : Registry) (a : Artifact) (fn : String), jsTruthyStr a.name = true →
      mapGet (loadPlugin reg (some a) fn) (a.name.getD "") = some (buildPluginData a fn)) := by
  constructor
  · exact loadPlugins_keys_nodup
  · intro reg a fn ha
    simp only [loadPlugin]
    rw [if_pos ha]
    exact mapGet_mapSet_self _ _ _

theorem load_no_collision_check_witness :
    jsTruthyStr aPingSecond.name = true ∧
    mapGet (loadPlugin [("ping", buildPluginData aPingFirst "a.js")] (some aPingSecond) "b.js")
        (aPingSecond.name.getD "") = some (buildPluginData aPingSecond "b.js") :=
  ⟨by decide, load_no_collision_check.2 _ _ _ (by decide)⟩

/-! ## C2: token resolution -/

/-- C2 counterexample: a descriptor named `x` is registered, yet
`findPlugin "x"` returns the earlier-registered descriptor `alpha` whose
alias list contains `x` — exact name match does not take priority over an
earlier alias match. -/
theorem resolve_priority_counterexample :
    (findPlugin aliasShadowReg "x").map (fun p => p.name) = some "alpha" ∧
    (mapGet aliasShadowReg "x").map (fun p => p.name) = some "x" := by
  decide

/-- C2 amended: `findPlugin` returns the first descriptor in registration
order whose name equals the token or whose aliases contain it: it returns
`none` iff no descriptor matches, any returned descriptor matches, and
exact-name resolution behaves as specified only when no registered alias
list contains the token. -/
theorem findPlugin_first_match_spec :
    (∀ (reg : Registry) (tok : String),
      findPlugin reg tok = none ↔
        ∀ p ∈ reg.map (·.2), ¬(p.name = tok ∨ tok ∈ p.aliases.getD [])) ∧
    (∀ (reg : Registry) (tok : String) (p : Plugin), findPlugin reg tok = some p →
      (p.name = tok ∨ tok ∈ p.aliases.getD [])) ∧
    (∀ (reg : Registry) (tok : String),
      (∀ p ∈ reg.map (·.2), tok ∉ p.aliases.getD []) →
      (∃ p ∈ reg.map (·.2), p.name = tok) →
      ∃ q, findPlugin reg tok = some q ∧ q.name = tok) := by
  refine ⟨?_, ?_, ?_⟩
  · intro reg tok
    unfold findPlugin
    rw [List.find?_eq_none]
    constructor
    · intro h' p hp hcon
      apply h' p hp
      rcases hcon with h1 | h1 <;> simp [h1]
    · intro h' x hx hpred
      exact h' x hx (by simpa using hpred)
  · intro reg tok p hp
    have := List.find?_some hp
    simpa using this
  · intro reg tok hal hex
    induction reg with
    | nil => simp at hex
    | cons e es ih =>
      by_cases hh : (fun q : Plugin => q.name = tok || (q.aliases.getD []).contains tok) e.2 = true
      · refine ⟨e.2, ?_, ?_⟩
        · show (List.map (·.2) (e :: es)).find? _ = some e.2
          rw [List.map_cons,
            List.find?_cons_of_pos
              (p := fun q : Plugin => q.name = tok || (q.aliases.getD []).contains tok) _ hh]
        · have h2 : (e.2.name = tok) ∨ tok ∈ e.2.aliases.getD [] := by simpa using hh
          rcases h2 with h | h
          · exact h
          · exact absurd h (hal e.2 (by simp))
      · have hstep : findPlugin (e :: es) tok = findPlugin es tok := by
          show (List.map (·.2) (e :: es)).find? _ = _
          rw [List.map_cons,
            List.find?_cons_of_neg
              (p := fun q : Plugin => q.name = tok || (q.aliases.getD []).contains tok) _ hh]
          rfl
        rw [hstep]
        apply ih
        · intro p hp
          exact hal p (by rw [List.map_cons]; exact List.mem_cons_of_mem _ hp)
        · rcases hex with ⟨p, hp, hpn⟩
          have hp2 : p = e.2 ∨ ∃ a, (a, p) ∈ es := by simpa using hp
          rcases hp2 with h | h
          · exfalso
            apply hh
            subst h
            simp [hpn]
          · rcases h with ⟨a2, ha2⟩
            exact ⟨p, List.mem_map.mpr ⟨(a2, p), ha2, rfl⟩, hpn⟩

theorem findPlugin_first_match_spec_witness :
    (∀ p ∈ ([("p", buildPluginData aPingFirst "a.js")] : Registry).map (·.2),
        "ping" ∉ p.aliases.getD []) ∧
    (∃ p ∈ ([("p", buildPluginData aPingFirst "a.js")] : Registry).map (·.2), p.name = "ping") ∧
    ∃ q, findPlugin [("p", buildPluginData aPingFirst "a.js")] "ping" = some q ∧ q.name = "ping" :=
  ⟨by decide, ⟨buildPluginData aPingFirst "a.js", by simp, by decide⟩,
    findPlugin_first_match_spec.2.2 _ _ (by decide)
      ⟨buildPluginData aPingFirst "a.js", by simp, by decide⟩⟩

/-! ## C8: load-time shape validation -/

/-- C8: `loadPlugin` registers an artifact that has a (truthy) `name` but
no callable `run` handler — the only shape check performed is
`!plugin.default.name`, contradicting the documented "must have `name`
and `run` function" validation. -/
theorem loadPlugin_registers_handlerless :
    (mapGet (loadPlugin [] (some brokenArtifact) "broken.js") "broken").map (fun p => p.run) =
      some false := by
  decide

/-! ## Store update lemmas -/

theorem updateFirst_mem_of_ne (l : List Record) (n : String) (f : Record → Record)
    (r : Record) (hr : r ∈ l) (hne : r.name ≠ n) : r ∈ updateFirst l n f := by
  induction l with
  | nil => simp at hr
  | cons e es ih =>
    by_cases he : e.name = n
    · rw [updateFirst, if_pos he]
      rcases List.mem_cons.mp hr with h | h
      · exact absurd (h ▸ he) hne
      · exact List.mem_cons_of_mem _ h
    · rw [updateFirst, if_neg he]
      rcases List.mem_cons.mp hr with h | h
      · exact h ▸ List.mem_cons_self _ _
      · exact List.mem_cons_of_mem _ (ih h)

theorem updateFirst_exists_name (l : List Record) (n : String) (f : Record → Record)
    (P : Record → Prop) (hP : ∀ x, x.name = n → (f x).name = n ∧ P (f x)) :
    (∃ r ∈ l, r.name = n) → ∃ r' ∈ updateFirst l n f, r'.name = n ∧ P r' := by
  induction l with
  | nil => rintro ⟨r, hr, -⟩; simp at hr
  | cons e es ih =>
    rintro ⟨r, hr, hrn⟩
    by_cases he : e.name = n
    · rw [updateFirst, if_pos he]
      exact ⟨f e, List.mem_cons_self _ _, (hP e he).1, (hP e he).2⟩
    · rw [updateFirst, if_neg he]
      rcases List.mem_cons.mp hr with h | h
      · exact absurd (h ▸ hrn) he
      · obtain ⟨r', hr', hprops⟩ := ih ⟨r, h, hrn⟩
        exact ⟨r', List.mem_cons_of_mem _ hr', hprops⟩

theorem updateFirst_name_mem (l : List Record) (n : String) (f : Record → Record)
    (hf : ∀ x, x.name = n → (f x).name = n)
    (r : Record) (hr : r ∈ l) : ∃ r' ∈ updateFirst l n f, r'.name = r.name := by
  induction l with
  | nil => simp at hr
  | cons e es ih =>
    by_cases he : e.name = n
    · rw [updateFirst, if_pos he]
      rcases List.mem_cons.mp hr with h | h
      · exact ⟨f e, List.mem_cons_self _ _, by rw [hf e he, h, he]⟩
      · exact ⟨r, List.mem_cons_of_mem _ h, rfl⟩
    · rw [updateFirst, if_neg he]
      rcases List.mem_cons.mp hr with h | h
      · exact ⟨e, List.mem_cons_self _ _, by rw [h]⟩
      · obtain ⟨r', hr', hname⟩ := ih h
        exact ⟨r', List.mem_cons_of_mem _ hr', hname⟩

/-! ## C3: crash window reset and auto-disable -/

/-- C3: (a) a crash recorded after a gap exceeding `CRASH_WINDOW` since a
(non-epoch) last crash resets the count to 0 before incrementing, giving
count 1 with the `enabled` flag untouched; (b) whenever the count after
incrementing reaches `MAX_CRASHES`, the descriptor is disabled in memory
and the store record of that name is updated to `enabled = false`. -/
theorem trackCrash_window_and_auto_disable :
    (∀ (reg : Registry) (store : List Record) (nm : String) (now : Nat) (p : Plugin) (t : Nat),
      mapGet reg nm = some p → p.lastCrash = some t → t ≠ 0 → now - t > CRASH_WINDOW →
      mapGet (trackCrash reg store nm now).1 nm =
        some { p with crashes := 1, lastCrash := some now }) ∧
    (∀ (reg : Registry) (store : List Record) (nm : String) (now : Nat) (p' : Plugin),
      mapGet (trackCrash reg store nm now).1 nm = some p' →
      p'.crashes ≥ MAX_CRASHES →
      p'.enabled = false ∧
      ((∃ r ∈ store, r.name = nm) →
        ∃ r' ∈ (trackCrash reg store nm now).2, r'.name = nm ∧ r'.enabled = false)) := by
  constructor
  · intro reg store nm now p t hget hlc ht hgap
    have htc : trackCrash reg store nm now = trackCrashGo reg store nm now p := by
      unfold trackCrash
      rw [hget]
    have hcount : newCrashCount p now = 1 := by
      unfold newCrashCount
      rw [hlc]
      show (if t ≠ 0 ∧ now - t > CRASH_WINDOW then 0 else p.crashes) + 1 = 1
      rw [if_pos (And.intro ht hgap)]
    rw [htc]
    unfold trackCrashGo
    rw [hcount, if_neg (by simp [MAX_CRASHES])]
    exact mapGet_mapSet_self _ _ _
  · intro reg store nm now p' hget' hmax
    cases hget : mapGet reg nm with
    | none =>
      have htc : trackCrash reg store nm now = (reg, store) := by
        unfold trackCrash
        rw [hget]
      rw [htc] at hget'
      exact absurd (hget ▸ hget') (by simp)
    | some p =>
      have htc : trackCrash reg store nm now = trackCrashGo reg store nm now p := by
        unfold trackCrash
        rw [hget]
      rw [htc] at hget' ⊢
      unfold trackCrashGo at hget' ⊢
      by_cases hcond : newCrashCount p now ≥ MAX_CRASHES
      · rw [if_pos hcond] at hget' ⊢
        rw [mapGet_mapSet_self] at hget'
        have hp' := Option.some_injective _ hget'
        constructor
        · rw [← hp']
        · rintro ⟨r, hr, hrn⟩
          obtain ⟨r1, hr1, hr1n⟩ := updateFirst_name_mem store nm
            (fun x => { x with crashes := newCrashCount p now, lastCrash := some now })
            (fun x hx => hx) r hr
          have h2 := updateFirst_exists_name
            (updateFirst store nm
              (fun x => { x with crashes := newCrashCount p now, lastCrash := some now }))
            nm (fun x => { x with enabled := false }) (fun x => x.enabled = false)
            (fun x hx => ⟨hx, rfl⟩) ⟨r1, hr1, hr1n.trans hrn⟩
          exact h2
      · rw [if_neg hcond] at hget'
        rw [mapGet_mapSet_self] at hget'
        have hp' := Option.some_injective _ hget'
        exfalso
        apply hcond
        have hc : p'.crashes = newCrashCount p now := by
          rw [← hp']
        exact hc ▸ hmax

theorem trackCrash_window_and_auto_disable_witness :
    (mapGet (trackCrash [("ping", pCrashedTwiceOld)] [] "ping" 3600003).1 "ping" =
      some { buildPluginData aPingFirst "a.js" with crashes := 1, lastCrash := some 3600003 }) ∧
    ({ pCrashedTwiceNew with crashes := 3, lastCrash := some 200, enabled := false }.enabled
        = false ∧
      ((∃ r ∈ [recX], r.name = "x") →
        ∃ r' ∈ (trackCrash [("x", pCrashedTwiceNew)] [recX] "x" 200).2,
          r'.name = "x" ∧ r'.enabled = false)) :=
  ⟨trackCrash_window_and_auto_disable.1 _ [] "ping" 3600003 pCrashedTwiceOld 1
      (by decide) (by decide) (by decide) (by decide),
   trackCrash_window_and_auto_disable.2 [("x", pCrashedTwiceNew)] [recX] "x" 200
      { pCrashedTwiceNew with crashes := 3, lastCrash := some 200, enabled := false }
      (by decide) (by decide)⟩

/-! ## C4: sync pulls in-memory `enabled` from the store -/

theorem syncRegEntry_fst (snapshot : List Record) (e : String × Plugin) :
    (syncRegEntry snapshot e).1 = e.1 := by
  unfold syncRegEntry
  cases existingGet snapshot e.1 <;> rfl

theorem syncStep_fst (snapshot : List Record) (now : Nat) (acc : Registry × List Record)
    (e : String × Plugin) :
    (syncStep snapshot now acc e).1 = acc.1 ++ [syncRegEntry snapshot e] := by
  cases hex : existingGet snapshot e.1 <;> simp [syncStep, syncRegEntry, hex]

theorem sync_foldl_fst (store : List Record) (now : Nat) :
    ∀ (reg : Registry) (acc : Registry × List Record),
    (reg.foldl (syncStep store now) acc).1 = acc.1 ++ reg.map (syncRegEntry store) := by
  intro reg
  induction reg with
  | nil => intro acc; simp
  | cons e es ih =>
    intro acc
    rw [List.foldl_cons, ih, syncStep_fst]
    simp

theorem sync_fst_eq_map (reg : Registry) (store : List Record) (now : Nat) :
    (syncPluginsToDatabase reg store now).1 = reg.map (syncRegEntry store) := by
  show (reg.foldl (syncStep store now) ([], store)).1 = _
  rw [sync_foldl_fst]
  simp

/-- C4: for every registry entry whose name has a persisted record, the
post-sync in-memory entry carries the store's `enabled` value — with no
condition on whether metadata differed. -/
theorem sync_pulls_enabled_from_store :
    ∀ (reg : Registry) (store : List Record) (now : Nat) (nm : String) (p : Plugin) (ex : Record),
      (nm, p) ∈ reg → existingGet store nm = some ex →
      (nm, { p with enabled := ex.enabled }) ∈ (syncPluginsToDatabase reg store now).1 := by
  intro reg store now nm p ex hmem hex
  rw [sync_fst_eq_map]
  exact List.mem_map.mpr ⟨(nm, p), hmem, by simp [syncRegEntry, hex]⟩

theorem sync_pulls_enabled_from_store_witness :
    ("ping", { buildPluginData aPingFirst "a.js" with enabled := recPingOff.enabled }) ∈
      (syncPluginsToDatabase [("ping", buildPluginData aPingFirst "a.js")] [recPingOff] 7).1 :=
  sync_pulls_enabled_from_store _ _ 7 _ _ _ (by decide) (by decide)

/-! ## C7: orphan marking without deletion -/

theorem sync_snd_eq (reg : Registry) (store : List Record) (now : Nat) :
    (syncPluginsToDatabase reg store now).2 =
      (store.filter (fun r => ¬ (reg.map (·.1)).contains r.name)).foldl
        (fun st o => updateFirst st o.name
          (fun r => { r with enabled := false, orphaned := true }))
        (reg.foldl (syncStep store now) ([], store)).2 := by
  have hkeys : (reg.foldl (syncStep store now) ([], store)).1.map (·.1) = reg.map (·.1) := by
    rw [sync_foldl_fst]
    simp only [List.nil_append, List.map_map]
    exact List.map_congr_left (fun e _ => syncRegEntry_fst store e)
  show (store.filter
      (fun r => ¬ ((reg.foldl (syncStep store now) ([], store)).1.map (·.1)).contains r.name)).foldl
        (fun st o => updateFirst st o.name
          (fun r => { r with enabled := false, orphaned := true }))
        (reg.foldl (syncStep store now) ([], store)).2 = _
  rw [hkeys]

theorem syncStep_store_mem (snapshot : List Record) (now : Nat)
    (acc : Registry × List Record) (e : String × Plugin) (r : Record)
    (hr : r ∈ acc.2) (hne : r.name ≠ e.1) : r ∈ (syncStep snapshot now acc e).2 := by
  unfold syncStep
  cases hex : existingGet snapshot e.1 with
  | none =>
    simp only
    exact List.mem_append_left _ hr
  | some ex =>
    simp only
    split
    · exact updateFirst_mem_of_ne _ _ _ r hr hne
    · exact hr

theorem sync_foldl_store_untouched (store : List Record) (now : Nat) :
    ∀ (reg : Registry) (acc : Registry × List Record) (r : Record),
    r ∈ acc.2 → (∀ e ∈ reg, r.name ≠ e.1) →
    r ∈ (reg.foldl (syncStep store now) acc).2 := by
  intro reg
  induction reg with
  | nil => intro acc r hr _; simpa using hr
  | cons e es ih =>
    intro acc r hr hne
    rw [List.foldl_cons]
    exact ih _ r (syncStep_store_mem _ _ _ _ r hr (hne e (List.mem_cons_self _ _)))
      (fun x hx => hne x (List.mem_cons_of_mem _ hx))

theorem syncStep_name_mem (snapshot : List Record) (now : Nat)
    (acc : Registry × List Record) (e : String × Plugin) (hkey : e.2.name = e.1)
    (r : Record) (hr : r ∈ acc.2) : ∃ r' ∈ (syncStep snapshot now acc e).2, r'.name = r.name := by
  unfold syncStep
  cases hex : existingGet snapshot e.1 with
  | none =>
    exact ⟨r, List.mem_append_left _ hr, rfl⟩
  | some ex =>
    simp only
    split
    · exact updateFirst_name_mem _ _ _
        (fun x hx => by simp [applyPluginDoc, pluginDoc, hkey]) r hr
    · exact ⟨r, hr, rfl⟩

theorem sync_foldl_name_mem (store : List Record) (now : Nat) :
    ∀ (reg : Registry) (acc : Registry × List Record),
    (∀ e ∈ reg, (e : String × Plugin).2.name = e.1) →
    ∀ r ∈ acc.2, ∃ r' ∈ (reg.foldl (syncStep store now) acc).2, r'.name = r.name := by
  intro reg
  induction reg with
  | nil =>
    intro acc _ r hr
    exact ⟨r, by simpa using hr, rfl⟩
  | cons e es ih =>
    intro acc hkeys r hr
    rw [List.foldl_cons]
    obtain ⟨r1, hr1, hn1⟩ := syncStep_name_mem store now acc e
      (hkeys e (List.mem_cons_self _ _)) r hr
    obtain ⟨r', hr', hn'⟩ := ih _ (fun x hx => hkeys x (List.mem_cons_of_mem _ hx)) r1 hr1
    exact ⟨r', hr', hn'.trans hn1⟩

theorem orphanFold_mem_of_ne :
    ∀ (os : List Record) (st : List Record) (r : Record),
    r ∈ st → (∀ o ∈ os, r.name ≠ o.name) →
    r ∈ os.foldl (fun st o => updateFirst st o.name
      (fun x => { x with enabled := false, orphaned := true })) st := by
  intro os
  induction os with
  | nil => intro st r hr _; simpa using hr
  | cons o1 os ih =>
    intro st r hr hne
    rw [List.foldl_cons]
    exact ih _ r (updateFirst_mem_of_ne _ _ _ r hr (hne o1 (List.mem_cons_self _ _)))
      (fun o ho => hne o (List.mem_cons_of_mem _ ho))

theorem orphanFold_name_mem :
    ∀ (os : List Record) (st : List Record) (r : Record), r ∈ st →
    ∃ r' ∈ os.foldl (fun st o => updateFirst st o.name
      (fun x => { x with enabled := false, orphaned := true })) st, r'.name = r.name := by
  intro os
  induction os with
  | nil => intro st r hr; exact ⟨r, by simpa using hr, rfl⟩
  | cons o1 os ih =>
    intro st r hr
    rw [List.foldl_cons]
    obtain ⟨r1, hr1, hn1⟩ := updateFirst_name_mem st o1.name
      (fun x => { x with enabled := false, orphaned := true }) (fun x hx => hx) r hr
    obtain ⟨r', hr', hn'⟩ := ih _ r1 hr1
    exact ⟨r', hr', hn'.trans hn1⟩

theorem orphanFold_marks :
    ∀ (os : List Record) (st : List Record),
    (os.map (·.name)).Nodup →
    (∀ o ∈ os, ∃ r ∈ st, r.name = o.name) →
    ∀ o ∈ os, ∃ r' ∈ os.foldl (fun st o => updateFirst st o.name
      (fun x => { x with enabled := false, orphaned := true })) st,
      r'.name = o.name ∧ r'.orphaned = true ∧ r'.enabled = false := by
  intro os
  induction os with
  | nil => intro st _ _ o ho; simp at ho
  | cons o1 os ih =>
    intro st hnd hex o ho
    rw [List.foldl_cons]
    rcases List.mem_cons.mp ho with h | h
    · subst h
      obtain ⟨r', hr', hrn, hP1, hP2⟩ := updateFirst_exists_name st o.name
        (fun x => { x with enabled := false, orphaned := true })
        (fun x => x.orphaned = true ∧ x.enabled = false)
        (fun x hx => ⟨hx, rfl, rfl⟩) (hex o (List.mem_cons_self _ _))
      refine ⟨r', ?_, hrn, hP1, hP2⟩
      apply orphanFold_mem_of_ne os _ r' hr'
      intro o' ho' hcon
      have : o.name ∈ os.map (·.name) := by
        rw [hrn] at hcon
        exact List.mem_map.mpr ⟨o', ho', hcon.symm⟩
      exact (List.nodup_cons.mp hnd).1 this
    · apply ih _ (List.nodup_cons.mp hnd).2 _ o h
      intro o' ho'
      obtain ⟨r, hr, hrn⟩ := hex o' (List.mem_cons_of_mem _ ho')
      obtain ⟨r1, hr1, hn1⟩ := updateFirst_name_mem st o1.name
        (fun x => { x with enabled := false, orphaned := true }) (fun x hx => hx) r hr
      exact ⟨r1, hr1, hn1.trans hrn⟩

theorem sync_marks_orphans (reg : Registry) (store : List Record) (now : Nat)
    (hnd : (store.map (·.name)).Nodup) :
    ∀ r ∈ store, ¬ (reg.map (·.1)).contains r.name = true →
    ∃ r' ∈ (syncPluginsToDatabase reg store now).2,
      r'.name = r.name ∧ r'.orphaned = true ∧ r'.enabled = false := by
  intro r hr hnc
  rw [sync_snd_eq]
  have hros : r ∈ store.filter (fun x => ¬ (reg.map (·.1)).contains x.name) := by
    rw [List.mem_filter]
    exact ⟨hr, by simpa using hnc⟩
  apply orphanFold_marks _ _ ?hnd ?hex r hros
  case hnd =>
    exact hnd.sublist ((List.filter_sublist _).map _)
  case hex =>
    intro o ho
    have ho2 := List.mem_filter.mp ho
    refine ⟨o, ?_, rfl⟩
    apply sync_foldl_store_untouched store now reg ([], store) o ho2.1
    intro e he hcon
    have hmem : (reg.map (·.1)).contains o.name = true := by
      rw [List.contains_eq_any_beq, List.any_eq_true]
      exact ⟨e.1, List.mem_map.mpr ⟨e, he, rfl⟩, by simp [hcon]⟩
    have hneg := ho2.2
    simp only [decide_eq_true_eq] at hneg
    exact hneg hmem

theorem sync_preserves_records (reg : Registry) (store : List Record) (now : Nat)
    (hkeys : ∀ e ∈ reg, (e : String × Plugin).2.name = e.1) :
    ∀ r ∈ store, ∃ r' ∈ (syncPluginsToDatabase reg store now).2, r'.name = r.name := by
  intro r hr
  rw [sync_snd_eq]
  obtain ⟨r1, hr1, hn1⟩ := sync_foldl_name_mem store now reg ([], store) hkeys r hr
  obtain ⟨r', hr', hn'⟩ := orphanFold_name_mem _ _ r1 hr1
  exact ⟨r', hr', hn'.trans hn1⟩

/-- C7: after a sync, every persisted record whose name is not a key of
the loaded registry has a record of the same name marked `orphaned = true,
enabled = false`, and no persisted record's name disappears from the
store (records are soft-disabled, never deleted). -/
theorem sync_orphan_soft_disable :
    (∀ (reg : Registry) (store : List Record) (now : Nat),
      (store.map (·.name)).Nodup →
      ∀ r ∈ store, ¬ (reg.map (·.1)).contains r.name = true →
      ∃ r' ∈ (syncPluginsToDatabase reg store now).2,
        r'.name = r.name ∧ r'.orphaned = true ∧ r'.enabled = false) ∧
    (∀ (reg : Registry) (store : List Record) (now : Nat),
      (∀ e ∈ reg, (e : String × Plugin).2.name = e.1) →
      ∀ r ∈ store, ∃ r' ∈ (syncPluginsToDatabase reg store now).2, r'.name = r.name) :=
  ⟨sync_marks_orphans, sync_preserves_records⟩

theorem sync_orphan_soft_disable_witness :
    (∃ r' ∈ (syncPluginsToDatabase [("ping", buildPluginData aPingFirst "a.js")]
        [recX, recPingOff] 9).2,
      r'.name = recX.name ∧ r'.orphaned = true ∧ r'.enabled = false) ∧
    (∃ r' ∈ (syncPluginsToDatabase [("ping", buildPluginData aPingFirst "a.js")]
        [recX, recPingOff] 9).2, r'.name = recPingOff.name) :=
  ⟨sync_orphan_soft_disable.1 _ _ 9 (by decide) recX (by decide) (by decide),
   sync_orphan_soft_disable.2 _ _ 9 (by decide) recPingOff (by decide)⟩

/-! ## C5: rate limiter -/

theorem cache_find?_replace (k : String) (v exp : Nat) (c : Cache)
    (h : c.any (fun e => e.1 = k) = true) :
    (c.map (fun e => if e.1 = k then (k, v, exp) else e)).find? (fun e => e.1 = k) =
      some (k, v, exp) := by
  induction c with
  | nil => simp at h
  | cons e es ih =>
    by_cases he : e.1 = k
    · simp [he]
    · have h2 : es.any (fun x => x.1 = k) = true := by simpa [he] using h
      simpa [he] using ih h2

theorem cache_find?_append (k : String) (v exp : Nat) (c : Cache)
    (h : c.any (fun e => e.1 = k) = false) :
    (c ++ [(k, v, exp)]).find? (fun e => e.1 = k) = some (k, v, exp) := by
  induction c with
  | nil => simp
  | cons e es ih =>
    have he : ¬ e.1 = k := by
      intro hk
      simp [hk] at h
    have h2 : es.any (fun x => x.1 = k) = false := by simpa [he] using h
    simpa [he] using ih h2

theorem cacheGet_cacheSet_same (c : Cache) (k : String) (v t t' : Nat)
    (h : t' < t + WINDOW_MS) : cacheGet (cacheSet c k v t) k t' = some v := by
  unfold cacheGet cacheSet
  by_cases hany : c.any (fun e => e.1 = k) = true
  · rw [if_pos hany, cache_find?_replace k v _ c hany]
    simp [h]
  · rw [if_neg hany, cache_find?_append k v _ c (by simpa only [Bool.not_eq_true] using hany)]
    simp [h]

theorem callSeq_closed (id : String) (t : Nat) :
    ∀ n, n + 1 ≤ MAX_REQUESTS →
    callSeq id t (n + 1) =
      (List.replicate (n + 1) true, [("rate_" ++ id, n + 1, t + WINDOW_MS)]) := by
  intro n
  induction n with
  | zero =>
    intro _
    simp [callSeq, checkLimit, cacheGet, cacheSet, MAX_REQUESTS]
  | succ n ih =>
    intro h
    have hlt : n + 1 < MAX_REQUESTS := h
    rw [callSeq, ih (Nat.le_of_succ_le h)]
    have hget : cacheGet [("rate_" ++ id, n + 1, t + WINDOW_MS)] ("rate_" ++ id) t =
        some (n + 1) := by
      simp [cacheGet, WINDOW_MS]
    simp [checkLimit, hget, Nat.not_le.mpr hlt, cacheSet, List.replicate_succ']

/-- C5: `checkLimit` (a) rejects without touching the window once the
current count has reached `MAX_REQUESTS`; (b) otherwise creates/refreshes
the window, increments the count and accepts; so (c) starting fresh, calls
1–10 within the window return `true` and the 11th returns `false`. -/
theorem checkLimit_spec :
    (∀ (c : Cache) (id : String) (t : Nat),
      (cacheGet c ("rate_" ++ id) t).getD 0 ≥ MAX_REQUESTS →
      checkLimit c id t = (false, c)) ∧
    (∀ (c : Cache) (id : String) (t : Nat),
      (cacheGet c ("rate_" ++ id) t).getD 0 < MAX_REQUESTS →
      (checkLimit c id t).1 = true ∧
      cacheGet (checkLimit c id t).2 ("rate_" ++ id) t =
        some ((cacheGet c ("rate_" ++ id) t).getD 0 + 1)) ∧
    (∀ (id : String) (t : Nat),
      (callSeq id t (MAX_REQUESTS + 1)).1 =
        List.replicate MAX_REQUESTS true ++ [false]) := by
  refine ⟨?_, ?_, ?_⟩
  · intro c id t h
    unfold checkLimit
    rw [if_pos h]
  · intro c id t h
    unfold checkLimit
    rw [if_neg (Nat.not_le.mpr h)]
    exact ⟨rfl, cacheGet_cacheSet_same _ _ _ _ _ (by simp [WINDOW_MS])⟩
  · intro id t
    have h10 : callSeq id t MAX_REQUESTS =
        (List.replicate MAX_REQUESTS true, [("rate_" ++ id, MAX_REQUESTS, t + WINDOW_MS)]) :=
      callSeq_closed id t 9 (by decide)
    rw [callSeq, h10]
    have hget : cacheGet [("rate_" ++ id, MAX_REQUESTS, t + WINDOW_MS)] ("rate_" ++ id) t =
        some MAX_REQUESTS := by
      simp [cacheGet, WINDOW_MS]
    simp [checkLimit, hget]

theorem checkLimit_spec_witness :
    checkLimit [("rate_u1", 10, 60000)] "u1" 5 = (false, [("rate_u1", 10, 60000)]) ∧
    ((checkLimit [] "u1" 0).1 = true ∧
      cacheGet (checkLimit [] "u1" 0).2 ("rate_" ++ "u1") 0 =
        some ((cacheGet ([] : Cache) ("rate_" ++ "u1") 0).getD 0 + 1)) ∧
    (callSeq "u1" 0 (MAX_REQUESTS + 1)).1 = List.replicate MAX_REQUESTS true ++ [false] :=
  ⟨checkLimit_spec.1 [("rate_u1", 10, 60000)] "u1" 5 (by decide),
   checkLimit_spec.2.1 [] "u1" 0 (by decide),
   checkLimit_spec.2.2 "u1" 0⟩

/-! ## C9: owner check is substring containment -/

/-- C9: `isOwner` is exactly substring containment of `OWNER_NUMBER` in
the sender JID, and in `executeCommand` any sender whose JID contains the
owner number anywhere passes the `ownerOnly` gate: the outcome is never
the owner-only rejection notice. -/
theorem owner_substring_gate :
    (∀ (ownerNumber jid : String),
      isOwner ownerNumber jid = true ↔ ownerNumber.data <:+: jid.data) ∧
    (∀ (reg : Registry) (store : List Record) (ownerNumber : String) (cmd : QueuedCmd)
        (handlerOk : Bool) (now : Nat) (p : Plugin),
      findPlugin reg cmd.commandName = some p → p.enabled = true →
      ownerNumber.data <:+: cmd.sender.data →
      (executeCommand reg store ownerNumber cmd handlerOk now).1 ≠
        ExecOutcome.ownerOnlyNotice) := by
  constructor
  · intro o j
    unfold isOwner jsIncludes
    exact ⟨of_decide_eq_true, decide_eq_true⟩
  · intro reg store o cmd handlerOk now p hfind hen hsub
    have hexec : executeCommand reg store o cmd handlerOk now =
        executeCommandGo reg store o cmd handlerOk now p := by
      unfold executeCommand
      rw [hfind]
    rw [hexec]
    unfold executeCommandGo
    have hio : isOwner o cmd.sender = true := decide_eq_true hsub
    rw [if_neg (by simp [hen])]
    rw [if_neg (by simp [hio])]
    by_cases hok : handlerOk = true
    · rw [if_pos hok]
      simp
    · rw [if_neg hok]
      simp

theorem owner_substring_gate_witness :
    (isOwner "1234567890" "991234567890123@s.whatsapp.net" = true ↔
      ("1234567890" : String).data <:+: ("991234567890123@s.whatsapp.net" : String).data) ∧
    ((executeCommand ownerReg [] "1234567890"
        ⟨"sec", [], "991234567890123@s.whatsapp.net"⟩ true 0).1 ≠
      ExecOutcome.ownerOnlyNotice) :=
  ⟨owner_substring_gate.1 "1234567890" "991234567890123@s.whatsapp.net",
   owner_substring_gate.2 ownerReg [] "1234567890"
     ⟨"sec", [], "991234567890123@s.whatsapp.net"⟩ true 0
     { buildPluginData { artifactBase with name := some "sec", ownerOnly := some true } "sec.js"
       with enabled := true }
     (by decide) (by decide) (by decide)⟩

/-! ## C10: reloadPlugin is not atomic on import failure -/

/-- C10: `reloadPlugin` deletes the descriptor before re-importing; if
the re-import of the plugin's file fails, the registry afterwards does
not contain the name, and the sync that follows marks its persisted
record `orphaned = true, enabled = false`. -/
theorem reloadPlugin_not_atomic :
    ∀ (reg : Registry) (store : List Record) (nm : String) (p : Plugin)
      (imp : String → Option Artifact) (now : Nat),
    mapGet reg nm = some p →
    imp p.filename = none →
    (store.map (·.name)).Nodup →
    (∃ r ∈ store, r.name = nm) →
    ∃ reg' store', reloadPlugin reg store nm imp now = .ok (reg', store') ∧
      mapGet reg' nm = none ∧
      ∃ r' ∈ store', r'.name = nm ∧ r'.orphaned = true ∧ r'.enabled = false := by
  intro reg store nm p imp now hget himp hnd hex
  have hrel : reloadPlugin reg store nm imp now =
      .ok (syncPluginsToDatabase
        (loadPlugin (mapDelete reg nm) (imp p.filename) p.filename) store now) := by
    unfold reloadPlugin
    rw [hget]
  rw [himp] at hrel
  have hload : loadPlugin (mapDelete reg nm) none p.filename = mapDelete reg nm := rfl
  rw [hload] at hrel
  have hkeys : ∀ e ∈ mapDelete reg nm, (e : String × Plugin).1 ≠ nm := by
    intro e he
    have := List.of_mem_filter he
    simpa using this
  refine ⟨_, _, hrel.trans (by rw [Prod.mk.eta]), ?_, ?_⟩
  · rw [sync_fst_eq_map, mapGet_eq_none_iff]
    intro e he
    rw [List.mem_map] at he
    obtain ⟨x, hx, hxe⟩ := he
    rw [← hxe, syncRegEntry_fst]
    exact hkeys x hx
  · obtain ⟨r, hr, hrn⟩ := hex
    have hnc : ¬ ((mapDelete reg nm).map (·.1)).contains r.name = true := by
      intro hcon
      rw [List.contains_eq_any_beq, List.any_eq_true] at hcon
      obtain ⟨x, hx, hxb⟩ := hcon
      rw [List.mem_map] at hx
      obtain ⟨e, he, hek⟩ := hx
      apply hkeys e he
      rw [← hek] at hxb
      have hre : r.name = e.1 := by simpa using hxb
      rw [← hre, hrn]
    obtain ⟨r', hr', hprops⟩ := sync_marks_orphans (mapDelete reg nm) store now hnd r hr hnc
    exact ⟨r', hr', hrn ▸ hprops.1, hprops.2⟩

theorem reloadPlugin_not_atomic_witness :
    ∃ reg' store',
      reloadPlugin reloadReg [recPingOff] "ping" (fun _ => none) 11 = .ok (reg', store') ∧
      mapGet reg' "ping" = none ∧
      ∃ r' ∈ store', r'.name = "ping" ∧ r'.orphaned = true ∧ r'.enabled = false :=
  reloadPlugin_not_atomic reloadReg [recPingOff] "ping"
    (buildPluginData aPingFirst "a.js") (fun _ => none) 11
    (by decide) rfl (by decide) ⟨recPingOff, by decide, by decide⟩

/-! ## C6: FIFO drain, single-flight execution, rejection before enqueue -/

theorem handleMessage_queue_suffix (pfx : String) (rl : Cache) (q : List QueuedCmd)
    (m : Msg) (t : Nat) : ∃ d, (handleMessage pfx rl q m t).2 = q ++ d := by
  dsimp only [handleMessage]
  split
  · exact ⟨[], by simp⟩
  · split
    · exact ⟨[], by simp⟩
    · split
      · exact ⟨_, rfl⟩
      · exact ⟨[], by simp⟩

theorem handleMessage_rejected_not_queued (pfx : String) (rl : Cache) (q : List QueuedCmd)
    (m : Msg) (t : Nat) (hrej : (checkLimit rl m.remoteJid t).1 = false) :
    (handleMessage pfx rl q m t).2 = q := by
  dsimp only [handleMessage]
  split
  · rfl
  · split
    · rfl
    · rw [if_neg (by simp [hrej])]

theorem reach_fifo (pfx : String) : ∀ s, Reach pfx s → s.started ++ s.queue = s.admitted := by
  intro s h
  induction h with
  | init => rfl
  | step s s' _ hstep ih =>
    cases hstep with
    | arrive m t =>
      obtain ⟨d, hd⟩ := handleMessage_queue_suffix pfx s.rl s.queue m t
      show s.started ++ (handleMessage pfx s.rl s.queue m t).2 =
        s.admitted ++ ((handleMessage pfx s.rl s.queue m t).2).drop s.queue.length
      rw [hd, List.drop_left, ← List.append_assoc, ih]
    | startDrain h1 h2 => exact ih
    | beginExec c rest h1 h2 hq =>
      show (s.started ++ [c]) ++ rest = s.admitted
      rw [List.append_assoc]
      show s.started ++ (c :: rest) = s.admitted
      rw [← hq, ih]
    | endExec h1 => exact ih
    | stopDrain h1 h2 h3 => exact ih

/-- C6: (a) in every reachable dispatcher state the executed-so-far
sequence followed by the pending queue is exactly the admission history —
so executions start in strict FIFO admission order; (b) the only step that
starts an execution requires the previous execution to have settled
(`running = false`) and takes exactly the queue head; (c) a message whose
rate check returns `false` leaves the command queue unchanged. -/
theorem queue_fifo_single_flight (pfx : String) :
    (∀ s, Reach pfx s → s.started ++ s.queue = s.admitted) ∧
    (∀ s s', DStep pfx s s' → s'.started ≠ s.started →
      s.running = false ∧ ∃ c, s'.started = s.started ++ [c] ∧ s.queue = c :: s'.queue) ∧
    (∀ (rl : Cache) (q : List QueuedCmd) (m : Msg) (t : Nat),
      (checkLimit rl m.remoteJid t).1 = false → (handleMessage pfx rl q m t).2 = q) := by
  refine ⟨reach_fifo pfx, ?_, ?_⟩
  · intro s s' hstep hne
    cases hstep with
    | arrive m t => exact absurd rfl hne
    | startDrain h1 h2 => exact absurd rfl hne
    | beginExec c rest h1 h2 hq => exact ⟨h2, c, rfl, hq⟩
    | endExec h1 => exact absurd rfl hne
    | stopDrain h1 h2 h3 => exact absurd rfl hne
  · intro rl q m t
    exact handleMessage_rejected_not_queued pfx rl q m t

theorem queue_fifo_single_flight_witness :
    ((intake "." initState pingMsg 0).started ++ (intake "." initState pingMsg 0).queue =
      (intake "." initState pingMsg 0).admitted) ∧
    (handleMessage "." [("rate_u1", 10, 60000)] [] pingMsg 5).2 = [] :=
  ⟨(queue_fifo_single_flight ".").1 _
      (Reach.step _ _ Reach.init (DStep.arrive _ pingMsg 0)),
   (queue_fifo_single_flight ".").2.2 [("rate_u1", 10, 60000)] [] pingMsg 5 (by decide)⟩

end Groq
